import Mathlib

/-!
Shallow embedding of the sigil-gen application core (src/main.rs): the
text editor (`handle_text_input` and its sub-operations), the glyph
generator (`generate_sigil`), and the frame-driven application state
machine (`update`).  Character data is modelled as `List Char`, `usize`
offsets as `Nat`, `f32` timers as `ℚ` (exact rational arithmetic), and
the trigonometric point positions as `ℝ`.  Randomness (the two
Fisher-Yates shuffles and the angle jitter) is modelled by explicit
oracle functions supplied per call.
-/

namespace SigilGen

/-! ## Text editor (`SigilApp` editing fields and `handle_text_input`) -/

/-- The editing fields of `SigilApp`: `intention`, `cursor_pos`,
`selection_start`. -/
structure EditorState where
  intention : List Char
  cursor_pos : Nat
  selection_start : Option Nat
deriving DecidableEq, Repr

/-- A character is accepted by the editor iff it is ASCII alphanumeric or
a space (`ch.is_ascii_alphanumeric() || ch == ' '`). -/
def validChar (c : Char) : Bool :=
  c.isAlphanum || c = ' '

/-- `selection_range`: normalized `(start, end)` of the selection, the
smaller of anchor and cursor first. -/
def selection_range (st : EditorState) : Option (Nat × Nat) :=
  st.selection_start.map fun s =>
    if s < st.cursor_pos then (s, st.cursor_pos) else (st.cursor_pos, s)

/-- `delete_selection`: drain the selected range, collapse the cursor to
the range start, clear the anchor; identity when no selection exists.
The Rust function also reports whether a selection existed, which here is
recovered as `st.selection_start.isSome`. -/
def delete_selection (st : EditorState) : EditorState :=
  match selection_range st with
  | some (s, e) =>
      { intention := st.intention.take s ++ st.intention.drop e
        cursor_pos := s
        selection_start := none }
  | none => st

/-- One iteration of the character-input loop: a valid character first
deletes any selection, then is inserted at the cursor only if the
(post-deletion) length is below 100. -/
def insertChar (st : EditorState) (c : Char) : EditorState :=
  if validChar c then
    let st1 := delete_selection st
    if st1.intention.length < 100 then
      { intention := st1.intention.insertIdx st1.cursor_pos c
        cursor_pos := st1.cursor_pos + 1
        selection_start := st1.selection_start }
    else st1
  else st

/-- Backspace: delete the selection if one exists, otherwise remove the
character before the cursor if any. -/
def backspaceStep (st : EditorState) : EditorState :=
  if st.selection_start.isSome then delete_selection st
  else if 0 < st.cursor_pos then
    { intention := st.intention.eraseIdx (st.cursor_pos - 1)
      cursor_pos := st.cursor_pos - 1
      selection_start := st.selection_start }
  else st

/-- Delete: delete the selection if one exists, otherwise remove the
character at the cursor if any. -/
def deleteStep (st : EditorState) : EditorState :=
  if st.selection_start.isSome then delete_selection st
  else if st.cursor_pos < st.intention.length then
    { intention := st.intention.eraseIdx st.cursor_pos
      cursor_pos := st.cursor_pos
      selection_start := st.selection_start }
  else st

/-- Left arrow.  With Shift held the cursor moves only when it is not at
offset 0, and the anchor is established at the pre-move position only if
none exists; without Shift the cursor moves (clamped) and the selection
is cleared. -/
def leftStep (shift : Bool) (st : EditorState) : EditorState :=
  if shift then
    if 0 < st.cursor_pos then
      { intention := st.intention
        cursor_pos := st.cursor_pos - 1
        selection_start :=
          if st.selection_start.isNone then some ((st.cursor_pos - 1) + 1)
          else st.selection_start }
    else st
  else
    { intention := st.intention
      cursor_pos := if 0 < st.cursor_pos then st.cursor_pos - 1 else st.cursor_pos
      selection_start := none }

/-- Right arrow, mirroring `leftStep` at the upper bound. -/
def rightStep (shift : Bool) (st : EditorState) : EditorState :=
  if shift then
    if st.cursor_pos < st.intention.length then
      { intention := st.intention
        cursor_pos := st.cursor_pos + 1
        selection_start :=
          if st.selection_start.isNone then some st.cursor_pos
          else st.selection_start }
    else st
  else
    { intention := st.intention
      cursor_pos :=
        if st.cursor_pos < st.intention.length then st.cursor_pos + 1
        else st.cursor_pos
      selection_start := none }

/-- Home: jump the cursor to 0; with Shift, first establish the anchor at
the pre-move cursor if none exists, otherwise clear the selection. -/
def homeStep (shift : Bool) (st : EditorState) : EditorState :=
  { intention := st.intention
    cursor_pos := 0
    selection_start :=
      if shift then
        if st.selection_start.isNone then some st.cursor_pos
        else st.selection_start
      else none }

/-- End: jump the cursor to the text length, same anchor semantics as
`homeStep`. -/
def endStep (shift : Bool) (st : EditorState) : EditorState :=
  { intention := st.intention
    cursor_pos := st.intention.length
    selection_start :=
      if shift then
        if st.selection_start.isNone then some st.cursor_pos
        else st.selection_start
      else none }

/-- Ctrl+A: anchor at 0, cursor to the text length. -/
def selectAllStep (st : EditorState) : EditorState :=
  { intention := st.intention
    cursor_pos := st.intention.length
    selection_start := some 0 }

/-- The body of the paste loop: an unguarded insert of each valid
character (the 100-cap is checked once, before the loop). -/
def rawInsert (st : EditorState) (c : Char) : EditorState :=
  if validChar c then
    { intention := st.intention.insertIdx st.cursor_pos c
      cursor_pos := st.cursor_pos + 1
      selection_start := st.selection_start }
  else st

/-- The placeholder clipboard contents used by Ctrl+V. -/
def pastedText : List Char := "pasted_text".toList

/-- Ctrl+V: only if the current length plus the raw (unfiltered) paste
length fits within 100, delete the selection and insert each valid
character of the paste text at the cursor; otherwise do nothing at all. -/
def pasteStep (st : EditorState) (text : List Char) : EditorState :=
  if st.intention.length + text.length ≤ 100 then
    text.foldl rawInsert (delete_selection st)
  else st

/-- Ctrl+X: drain the selected range, collapse the cursor to its start,
clear the anchor (the copied substring goes to an external sink). -/
def cutStep (st : EditorState) : EditorState :=
  match selection_range st with
  | some (s, e) =>
      { intention := st.intention.take s ++ st.intention.drop e
        cursor_pos := s
        selection_start := none }
  | none => st

/-- The editing inputs of one frame: the drained character queue and the
pressed/held key flags that `handle_text_input` polls. -/
structure EditorInput where
  chars : List Char
  backspace : Bool
  delete : Bool
  left : Bool
  right : Bool
  home : Bool
  endKey : Bool
  shift : Bool
  ctrl : Bool
  keyA : Bool
  keyC : Bool
  keyV : Bool
  keyX : Bool
deriving Repr

/-- `handle_text_input`: the per-frame editor dispatch, in source order
(character loop, Backspace, Delete, Left, Right, Home, End, Ctrl+A,
Ctrl+C, Ctrl+V, Ctrl+X).  Ctrl+C only reads the selection and so leaves
the state unchanged. -/
def handle_text_input (inp : EditorInput) (st : EditorState) : EditorState :=
  let st := inp.chars.foldl insertChar st
  let st := if inp.backspace then backspaceStep st else st
  let st := if inp.delete then deleteStep st else st
  let st := if inp.left then leftStep inp.shift st else st
  let st := if inp.right then rightStep inp.shift st else st
  let st := if inp.home then homeStep inp.shift st else st
  let st := if inp.endKey then endStep inp.shift st else st
  let st := if inp.keyA && inp.ctrl then selectAllStep st else st
  let st := if inp.keyV && inp.ctrl then pasteStep st pastedText else st
  let st := if inp.keyX && inp.ctrl then cutStep st else st
  st

/-- The editor fields of `SigilApp::new()`. -/
def editorInit : EditorState :=
  { intention := [], cursor_pos := 0, selection_start := none }

/-- Run a sequence of per-frame editor inputs from the initial state. -/
def runEditor (inputs : List EditorInput) : EditorState :=
  inputs.foldl (fun st inp => handle_text_input inp st) editorInit

/-! ## Glyph generator (`generate_sigil`) -/

/-- The vowel list `"aeiouAEIOU"`. -/
def vowels : List Char := "aeiouAEIOU".toList

/-- The deduplication pass implemented with the `seen : HashSet` in the
source: keep a character iff it has not appeared before, in order. -/
def dedupSeen (seen : List Char) : List Char → List Char
  | [] => []
  | c :: rest =>
      if c ∈ seen then dedupSeen seen rest
      else c :: dedupSeen (c :: seen) rest

/-- The filtered/deduplicated character string of an intention: keep
ASCII alphanumerics that are not vowels, lowercase them, then drop
repeated characters keeping the first occurrence. -/
def filterIntention (intention : List Char) : List Char :=
  dedupSeen []
    ((intention.filter fun c => c.isAlphanum && !(c ∈ vowels)).map Char.toLower)

/-- The digit mapping: a digit character maps to its value, any other
character to its codepoint offset from `'a'` modulo 10 (the source
computes both on `u8` codepoints; all inputs reaching the second branch
are lowercase ASCII letters, so no wraparound occurs). -/
def charToDigit (c : Char) : Nat :=
  if c.isDigit then c.toNat - '0'.toNat
  else (c.toNat - 'a'.toNat) % 10

/-- `numbers.swap(i, j)` on lists: exchange the elements at two valid
indices, identity otherwise (the source only ever calls it with valid
indices). -/
def listSwap (l : List α) (i j : Nat) : List α :=
  if h : i < l.length ∧ j < l.length then
    (l.set i (l.get ⟨j, h.2⟩)).set j (l.get ⟨i, h.1⟩)
  else l

/-- The right-to-left Fisher-Yates loop, counting the index `i` down:
`fisherYatesAux rng i l` performs the swaps at indices `i, i-1, ..., 1`,
taking the partner index for each `i` from the oracle `rng`
(`rand::gen_range(0, i + 1)` in the source). -/
def fisherYatesAux (rng : Nat → Nat) : Nat → List α → List α
  | 0, l => l
  | i + 1, l => fisherYatesAux rng i (listSwap l (i + 1) (rng (i + 1)))

/-- The full Fisher-Yates shuffle `for i in (1..len).rev()`. -/
def fisherYates (rng : Nat → Nat) (l : List α) : List α :=
  fisherYatesAux rng (l.length - 1) l

/-- A sigil point: position relative to the circle center and its digit
label. -/
structure SigilPoint where
  relative_pos : ℝ × ℝ
  number : Nat

/-- The fixed circle radius (250.0 in the source). -/
def CIRCLE_RADIUS : ℝ := 250

/-- The per-point position `vec2(angle.cos(), angle.sin()) * CIRCLE_RADIUS`. -/
noncomputable def pointPos (angle : ℝ) : ℝ × ℝ :=
  (Real.cos angle * CIRCLE_RADIUS, Real.sin angle * CIRCLE_RADIUS)

/-- The `numbers` vector of `generate_sigil`: the filtered characters
mapped to digits and then shuffled in place. -/
def sigilNumbers (rng1 : Nat → Nat) (filtered : List Char) : List Nat :=
  fisherYates rng1 (filtered.map charToDigit)

/-- The `angles` vector of `generate_sigil`: `n` evenly spaced angles
around the circle, each perturbed by its jitter draw, then shuffled in
place. -/
noncomputable def sigilAngles (rng2 : Nat → Nat) (jitter : Nat → ℝ)
    (n : Nat) : List ℝ :=
  fisherYates rng2 ((List.range n).map fun i =>
    ((i : ℕ) : ℝ) / (n : ℝ) * (2 * Real.pi) + jitter i)

/-- The points built by zipping the shuffled numbers with the shuffled
angles. -/
noncomputable def sigilPoints (rng1 rng2 : Nat → Nat) (jitter : Nat → ℝ)
    (filtered : List Char) : List SigilPoint :=
  ((sigilNumbers rng1 filtered).zip
      (sigilAngles rng2 jitter (sigilNumbers rng1 filtered).length)).map
    fun na => { relative_pos := pointPos na.2, number := na.1 }

/-- `generate_sigil` as a pure function of the intention and the three
random oracles: `rng1` drives the digit shuffle, `jitter` the angle
perturbation (`gen_range(-0.2, 0.2)` per index), `rng2` the angle
shuffle.  Returns `none` exactly when the source returns early (trimmed
intention empty, or nothing survives the filter), otherwise the ordered
point list that replaces `self.points`. -/
noncomputable def generate_sigil (rng1 rng2 : Nat → Nat) (jitter : Nat → ℝ)
    (intention : List Char) : Option (List SigilPoint) :=
  if intention.all Char.isWhitespace then none
  else if filterIntention intention = [] then none
  else some (sigilPoints rng1 rng2 jitter (filterIntention intention))

/-! ## Application state machine (`State`, `SigilApp`, `update`) -/

/-- The `State` enum: `Animating` carries its drawing progress (an `f32`
in the source, a `ℚ` here) and current line index. -/
inductive State where
  | start : State
  | input : State
  | display : State
  | animating (progress : ℚ) (line : Nat) : State
  | saving : State
deriving DecidableEq, Repr

/-- The full `SigilApp` state. -/
structure AppState where
  state : State
  intention : List Char
  points : List SigilPoint
  blink_timer : ℚ
  save_timer : ℚ
  cursor_pos : Nat
  selection_start : Option Nat

/-- The animation speed constant (3.0 in the source). -/
def ANIMATION_SPEED : ℚ := 3

/-- The external inputs of one frame: the editor inputs, the state-level
keys, the frame time, the random oracles consumed if generation runs this
frame, and the success/failure outcome of the export side effect should a
save be requested (the file write is an external capability; only its
outcome is modelled). -/
structure InputTick where
  editor : EditorInput
  space : Bool
  enter : Bool
  keyR : Bool
  keyS : Bool
  frameTime : ℚ
  rng1 : Nat → Nat
  rng2 : Nat → Nat
  jitter : Nat → ℝ
  exportOk : Bool

/-- The editor view of an `AppState`. -/
def toEditor (s : AppState) : EditorState :=
  { intention := s.intention
    cursor_pos := s.cursor_pos
    selection_start := s.selection_start }

/-- Write an editor state back into the app state. -/
def fromEditor (s : AppState) (ed : EditorState) : AppState :=
  { s with
    intention := ed.intention
    cursor_pos := ed.cursor_pos
    selection_start := ed.selection_start }

/-- `reset`: back to the input screen with the text, points, blink timer,
cursor and selection cleared (`save_timer` is untouched by the source). -/
def reset (s : AppState) : AppState :=
  { s with
    state := State.input
    intention := []
    points := []
    blink_timer := 0
    cursor_pos := 0
    selection_start := none }

/-- The timer phase at the top of `update`: advance `blink_timer` always
and, when on the saving screen, advance `save_timer`, returning to the
display screen with the timer cleared once it exceeds 1.0. -/
def tickTimers (dt : ℚ) (s : AppState) : AppState :=
  let s := { s with blink_timer := s.blink_timer + dt }
  if s.state = State.saving then
    let t := s.save_timer + dt
    if 1 < t then { s with state := State.display, save_timer := 0 }
    else { s with save_timer := t }
  else s

/-- The state-machine dispatch of `update`, running after the timer
phase on the (possibly already updated) screen: `Start` waits for Space;
`Input` runs the editor and, on Enter with non-whitespace text, attempts
generation; `Display` routes Space (needs more than one point) to
animation, R to reset and S to saving (the export attempt's outcome
`tick.exportOk` is reported to a log and ignored); `Animating` advances
the per-segment progress; `Saving` ignores all input. -/
noncomputable def dispatch (tick : InputTick) (s : AppState) : AppState :=
  match s.state with
  | State.start =>
      if tick.space then { s with state := State.input } else s
  | State.input =>
      let s := fromEditor s (handle_text_input tick.editor (toEditor s))
      if tick.enter && !(s.intention.all Char.isWhitespace) then
        match generate_sigil tick.rng1 tick.rng2 tick.jitter s.intention with
        | some pts => { s with points := pts, state := State.display }
        | none => s
      else s
  | State.display =>
      if tick.space && decide (1 < s.points.length) then
        { s with state := State.animating 0 0 }
      else if tick.keyR then reset s
      else if tick.keyS then { s with state := State.saving }
      else s
  | State.animating progress line =>
      let p := progress + tick.frameTime * ANIMATION_SPEED
      if 1 ≤ p then
        if s.points.length - 1 ≤ line + 1 then { s with state := State.display }
        else { s with state := State.animating 0 (line + 1) }
      else { s with state := State.animating p line }
  | State.saving => s

/-- `update`: one frame of `SigilApp::update` — the timer phase followed
by the state-machine dispatch. -/
noncomputable def update (tick : InputTick) (s : AppState) : AppState :=
  dispatch tick (tickTimers tick.frameTime s)

/-- `SigilApp::new()`. -/
def initApp : AppState :=
  { state := State.start
    intention := []
    points := []
    blink_timer := 0
    save_timer := 0
    cursor_pos := 0
    selection_start := none }

/-- Run a sequence of frames from the initial application state. -/
noncomputable def runApp (ticks : List InputTick) : AppState :=
  ticks.foldl (fun s t => update t s) initApp

/-! ## Editor invariants -/

/-- The timer invariant: outside the saving screen `save_timer` is 0;
it is therefore 0 when `Saving` is entered (the `Display → Saving`
transition does not touch it) and reset to 0 on leaving. -/
def SaveTimerInv (s : AppState) : Prop :=
  s.state ≠ State.saving → s.save_timer = 0

/-- The animation invariant: the animating screen always holds at least
two glyph points. -/
def AnimInv (s : AppState) : Prop :=
  ∀ p l, s.state = State.animating p l → 2 ≤ s.points.length

/-- The editor bounds invariant: the cursor is inside `[0, length]` and
so is the selection anchor when one exists. -/
def EditorInv (st : EditorState) : Prop :=
  st.cursor_pos ≤ st.intention.length ∧
    ∀ a, st.selection_start = some a → a ≤ st.intention.length

theorem delete_selection_selection (st : EditorState) :
    (delete_selection st).selection_start = none := by
  rcases st with ⟨text, c, sel⟩
  cases sel with
  | none => rfl
  | some a =>
      by_cases hlt : a < c <;> simp [delete_selection, selection_range, hlt]

theorem inv_delete_selection (st : EditorState) (h : EditorInv st) :
    EditorInv (delete_selection st) := by
  rcases st with ⟨text, c, sel⟩
  obtain ⟨hc, hs⟩ := h
  dsimp only at hc hs
  cases sel with
  | none => exact ⟨hc, hs⟩
  | some a =>
      have ha : a ≤ text.length := hs a rfl
      by_cases hlt : a < c <;>
        refine ⟨?_, by simp [delete_selection, selection_range, hlt]⟩ <;>
        simp [delete_selection, selection_range, hlt] <;> omega

theorem inv_rawInsert (st : EditorState) (c : Char) (h : EditorInv st) :
    EditorInv (rawInsert st c) := by
  rcases st with ⟨text, cur, sel⟩
  obtain ⟨hc, hs⟩ := h
  dsimp only at hc hs
  unfold rawInsert
  by_cases hv : validChar c = true
  · have hlen : (text.insertIdx cur c).length = text.length + 1 :=
      List.length_insertIdx cur text hc
    simp only [hv, if_pos]
    refine ⟨?_, fun a ha => ?_⟩
    · simp [hlen]; omega
    · have := hs a ha
      simp [hlen]; omega
  · simp only [hv]
    exact ⟨hc, hs⟩

theorem inv_insertChar (st : EditorState) (c : Char) (h : EditorInv st) :
    EditorInv (insertChar st c) := by
  unfold insertChar
  by_cases hv : validChar c = true
  · simp only [hv, if_pos]
    have h1 := inv_delete_selection st h
    obtain ⟨hc, hs⟩ := h1
    by_cases hlt : (delete_selection st).intention.length < 100
    · simp only [hlt, if_pos]
      have hlen : ((delete_selection st).intention.insertIdx
          (delete_selection st).cursor_pos c).length =
          (delete_selection st).intention.length + 1 :=
        List.length_insertIdx _ _ hc
      refine ⟨?_, fun a ha => ?_⟩
      · simp [hlen]; omega
      · have := hs a ha
        simp at ha
        simp [hlen]; omega
    · simp only [hlt, if_neg, ite_false]
      exact ⟨hc, hs⟩
  · simp only [hv]
    exact h

theorem inv_backspaceStep (st : EditorState) (h : EditorInv st) :
    EditorInv (backspaceStep st) := by
  rcases st with ⟨text, cur, sel⟩
  obtain ⟨hc, hs⟩ := h
  dsimp only at hc hs
  cases sel with
  | some a =>
      exact inv_delete_selection ⟨text, cur, some a⟩ ⟨hc, hs⟩
  | none =>
      by_cases hcur : 0 < cur
      · have hlen : (text.eraseIdx (cur - 1)).length = text.length - 1 := by
          rw [List.length_eraseIdx]
          have : cur - 1 < text.length := by omega
          simp [this]
        refine ⟨?_, fun a ha => ?_⟩
        · simp [backspaceStep, hcur, hlen]; omega
        · simp [backspaceStep, hcur] at ha
      · refine ⟨?_, fun a ha => ?_⟩
        · simp [backspaceStep, hcur]; omega
        · simp [backspaceStep, hcur] at ha

theorem inv_deleteStep (st : EditorState) (h : EditorInv st) :
    EditorInv (deleteStep st) := by
  rcases st with ⟨text, cur, sel⟩
  obtain ⟨hc, hs⟩ := h
  dsimp only at hc hs
  cases sel with
  | some a =>
      exact inv_delete_selection ⟨text, cur, some a⟩ ⟨hc, hs⟩
  | none =>
      by_cases hcur : cur < text.length
      · have hlen : (text.eraseIdx cur).length = text.length - 1 := by
          rw [List.length_eraseIdx]
          simp [hcur]
        refine ⟨?_, fun a ha => ?_⟩
        · simp [deleteStep, hcur, hlen]; omega
        · simp [deleteStep, hcur] at ha
      · refine ⟨?_, fun a ha => ?_⟩
        · simp [deleteStep, hcur]; omega
        · simp [deleteStep, hcur] at ha

theorem inv_leftStep (b : Bool) (st : EditorState) (h : EditorInv st) :
    EditorInv (leftStep b st) := by
  rcases st with ⟨text, cur, sel⟩
  obtain ⟨hc, hs⟩ := h
  dsimp only at hc hs
  cases b with
  | true =>
      by_cases hcur : 0 < cur
      · refine ⟨?_, fun a ha => ?_⟩
        · simp [leftStep, hcur]; omega
        · simp [leftStep, hcur] at ha ⊢
          cases sel with
          | none => simp at ha; omega
          | some x =>
              simp at ha
              subst ha
              exact hs x rfl
      · simp [leftStep, hcur]
        exact ⟨hc, hs⟩
  | false =>
      refine ⟨?_, fun a ha => ?_⟩
      · by_cases hcur : 0 < cur <;> simp [leftStep, hcur] <;> omega
      · simp [leftStep] at ha

theorem inv_rightStep (b : Bool) (st : EditorState) (h : EditorInv st) :
    EditorInv (rightStep b st) := by
  rcases st with ⟨text, cur, sel⟩
  obtain ⟨hc, hs⟩ := h
  dsimp only at hc hs
  cases b with
  | true =>
      by_cases hcur : cur < text.length
      · refine ⟨?_, fun a ha => ?_⟩
        · simp [rightStep, hcur]; omega
        · simp [rightStep, hcur] at ha ⊢
          cases sel with
          | none => simp at ha; omega
          | some x =>
              simp at ha
              subst ha
              exact hs x rfl
      · simp [rightStep, hcur]
        exact ⟨hc, hs⟩
  | false =>
      refine ⟨?_, fun a ha => ?_⟩
      · by_cases hcur : cur < text.length <;> simp [rightStep, hcur] <;> omega
      · simp [rightStep] at ha

theorem inv_homeStep (b : Bool) (st : EditorState) (h : EditorInv st) :
    EditorInv (homeStep b st) := by
  rcases st with ⟨text, cur, sel⟩
  obtain ⟨hc, hs⟩ := h
  dsimp only at hc hs
  refine ⟨by simp [homeStep], fun a ha => ?_⟩
  cases b with
  | true =>
      simp [homeStep] at ha ⊢
      cases sel with
      | none => simp at ha; omega
      | some x =>
          simp at ha
          subst ha
          exact hs x rfl
  | false => simp [homeStep] at ha

theorem inv_endStep (b : Bool) (st : EditorState) (h : EditorInv st) :
    EditorInv (endStep b st) := by
  rcases st with ⟨text, cur, sel⟩
  obtain ⟨hc, hs⟩ := h
  dsimp only at hc hs
  refine ⟨by simp [endStep], fun a ha => ?_⟩
  cases b with
  | true =>
      simp [endStep] at ha ⊢
      cases sel with
      | none => simp at ha; omega
      | some x =>
          simp at ha
          subst ha
          exact hs x rfl
  | false => simp [endStep] at ha

theorem inv_selectAllStep (st : EditorState) (h : EditorInv st) :
    EditorInv (selectAllStep st) := by
  refine ⟨le_refl _, fun a ha => ?_⟩
  simp [selectAllStep] at ha
  omega

theorem inv_pasteLoop (text : List Char) (st : EditorState) (h : EditorInv st) :
    EditorInv (text.foldl rawInsert st) := by
  induction text generalizing st with
  | nil => exact h
  | cons c rest ih => exact ih _ (inv_rawInsert st c h)

theorem inv_pasteStep (st : EditorState) (text : List Char) (h : EditorInv st) :
    EditorInv (pasteStep st text) := by
  unfold pasteStep
  split
  · exact inv_pasteLoop text _ (inv_delete_selection st h)
  · exact h

theorem cutStep_eq_delete_selection (st : EditorState) :
    cutStep st = delete_selection st := rfl

theorem inv_cutStep (st : EditorState) (h : EditorInv st) :
    EditorInv (cutStep st) :=
  cutStep_eq_delete_selection st ▸ inv_delete_selection st h

theorem inv_ite (b : Bool) (f : EditorState → EditorState)
    (hf : ∀ s, EditorInv s → EditorInv (f s)) (s : EditorState)
    (h : EditorInv s) : EditorInv (if b then f s else s) := by
  cases b with
  | false => simpa using h
  | true => simpa using hf s h

theorem inv_foldl_insertChar (cs : List Char) (st : EditorState)
    (h : EditorInv st) : EditorInv (cs.foldl insertChar st) := by
  induction cs generalizing st with
  | nil => exact h
  | cons c rest ih => exact ih _ (inv_insertChar st c h)

/-! ## Shuffle permutation lemmas -/

theorem get_cons_set_perm (t : List α) (k : Nat) (hk : k < t.length) (x : α) :
    (t.get ⟨k, hk⟩ :: t.set k x).Perm (x :: t) := by
  induction t generalizing k with
  | nil => cases hk
  | cons y s ih =>
      cases k with
      | zero => simpa using List.Perm.swap x y s
      | succ m =>
          have hm : m < s.length := by simpa using hk
          have h1 : (s.get ⟨m, hm⟩ :: y :: s.set m x).Perm
              (y :: s.get ⟨m, hm⟩ :: s.set m x) := List.Perm.swap _ _ _
          have h2 : (y :: s.get ⟨m, hm⟩ :: s.set m x).Perm (y :: x :: s) :=
            (ih m hm).cons y
          have h3 : (y :: x :: s).Perm (x :: y :: s) := List.Perm.swap _ _ _
          simpa using (h1.trans h2).trans h3

theorem set_set_perm (l : List α) (i j : Nat) (hi : i < l.length)
    (hj : j < l.length) :
    ((l.set i (l.get ⟨j, hj⟩)).set j (l.get ⟨i, hi⟩)).Perm l := by
  induction l generalizing i j with
  | nil => cases hi
  | cons y s ih =>
      cases i with
      | zero =>
          cases j with
          | zero => simp
          | succ m =>
              have hm : m < s.length := by simpa using hj
              simpa using get_cons_set_perm s m hm y
      | succ n =>
          cases j with
          | zero =>
              have hn : n < s.length := by simpa using hi
              simpa using get_cons_set_perm s n hn y
          | succ m =>
              have hn : n < s.length := by simpa using hi
              have hm : m < s.length := by simpa using hj
              simpa using (ih n m hn hm).cons y

theorem listSwap_perm (l : List α) (i j : Nat) : (listSwap l i j).Perm l := by
  unfold listSwap
  split
  · next h => exact set_set_perm l i j h.1 h.2
  · exact List.Perm.refl l

theorem fisherYatesAux_perm (rng : Nat → Nat) (n : Nat) (l : List α) :
    (fisherYatesAux rng n l).Perm l := by
  induction n generalizing l with
  | zero => exact List.Perm.refl l
  | succ i ih =>
      exact (ih (listSwap l (i + 1) (rng (i + 1)))).trans
        (listSwap_perm l (i + 1) (rng (i + 1)))

theorem fisherYates_perm (rng : Nat → Nat) (l : List α) :
    (fisherYates rng l).Perm l :=
  fisherYatesAux_perm rng (l.length - 1) l

theorem fisherYates_length (rng : Nat → Nat) (l : List α) :
    (fisherYates rng l).length = l.length :=
  (fisherYates_perm rng l).length_eq

/-! ## Generator lemmas -/

theorem whitespace_not_alphanum (c : Char) (h : c.isWhitespace = true) :
    c.isAlphanum = false := by
  simp [Char.isWhitespace] at h
  rcases h with ((h | h) | h) | h <;> subst h <;> decide

theorem filterIntention_of_whitespace (intention : List Char)
    (h : intention.all Char.isWhitespace = true) :
    filterIntention intention = [] := by
  have hf : intention.filter (fun c => c.isAlphanum && !(c ∈ vowels)) = [] := by
    rw [List.filter_eq_nil_iff]
    intro a ha
    have hw := (List.all_eq_true.mp h) a ha
    simp [whitespace_not_alphanum a hw]
  simp [filterIntention, hf, dedupSeen]

theorem charToDigit_le_nine (c : Char) : charToDigit c ≤ 9 := by
  unfold charToDigit
  have h0 : '0'.toNat = 48 := rfl
  split
  · next h =>
      have h9 : c.toNat ≤ 57 := by
        simp [Char.isDigit] at h
        exact h.2
      omega
  · omega


theorem inv_handle_text_input (inp : EditorInput) (st : EditorState)
    (h : EditorInv st) : EditorInv (handle_text_input inp st) :=
  inv_ite _ _ (fun s hs => inv_cutStep s hs) _
    (inv_ite _ _ (fun s hs => inv_pasteStep s pastedText hs) _
      (inv_ite _ _ (fun s hs => inv_selectAllStep s hs) _
        (inv_ite _ _ (fun s hs => inv_endStep inp.shift s hs) _
          (inv_ite _ _ (fun s hs => inv_homeStep inp.shift s hs) _
            (inv_ite _ _ (fun s hs => inv_rightStep inp.shift s hs) _
              (inv_ite _ _ (fun s hs => inv_leftStep inp.shift s hs) _
                (inv_ite _ _ (fun s hs => inv_deleteStep s hs) _
                  (inv_ite _ _ (fun s hs => inv_backspaceStep s hs) _
                    (inv_foldl_insertChar inp.chars st h)))))))))

theorem inv_runEditorAux (inputs : List EditorInput) (st : EditorState)
    (h : EditorInv st) :
    EditorInv (inputs.foldl (fun s inp => handle_text_input inp s) st) := by
  induction inputs generalizing st with
  | nil => exact h
  | cons i rest ih => exact ih _ (inv_handle_text_input i st h)

theorem selection_range_bounds (st : EditorState) (h : EditorInv st)
    (s e : Nat) (hr : selection_range st = some (s, e)) :
    s ≤ e ∧ e ≤ st.intention.length := by
  rcases st with ⟨text, c, sel⟩
  obtain ⟨hc, hs⟩ := h
  dsimp only at hc hs ⊢
  cases sel with
  | none => simp [selection_range] at hr
  | some a =>
      have ha : a ≤ text.length := hs a rfl
      by_cases hlt : a < c <;> simp [selection_range, hlt] at hr <;> omega

/-! ## Editor splice lemmas (for the paste loop) -/

theorem insertIdx_eq_take_cons_drop (l : List α) (n : Nat) (a : α)
    (h : n ≤ l.length) :
    l.insertIdx n a = l.take n ++ a :: l.drop n := by
  induction l generalizing n with
  | nil =>
      have hn : n = 0 := by simpa using h
      subst hn
      simp
  | cons y s ih =>
      cases n with
      | zero => simp
      | succ m =>
          have hm : m ≤ s.length := by simpa using h
          simp [List.insertIdx_succ_cons, ih m hm]

theorem pasteLoop_splice (text : List Char) (st : EditorState)
    (h : st.cursor_pos ≤ st.intention.length) :
    text.foldl rawInsert st =
      { intention := st.intention.take st.cursor_pos
          ++ text.filter (fun c => validChar c)
          ++ st.intention.drop st.cursor_pos
        cursor_pos := st.cursor_pos + (text.filter (fun c => validChar c)).length
        selection_start := st.selection_start } := by
  induction text generalizing st with
  | nil =>
      rcases st with ⟨l, cur, sel⟩
      simp
  | cons c rest ih =>
      rcases st with ⟨l, cur, sel⟩
      dsimp only at h
      by_cases hv : validChar c = true
      · have hstep : rawInsert ⟨l, cur, sel⟩ c
            = ⟨l.insertIdx cur c, cur + 1, sel⟩ := by
          simp [rawInsert, hv]
        have hlen : (l.insertIdx cur c).length = l.length + 1 :=
          List.length_insertIdx cur l h
        have hcur : cur + 1 ≤ (l.insertIdx cur c).length := by omega
        have hsplit : l.insertIdx cur c = l.take cur ++ c :: l.drop cur :=
          insertIdx_eq_take_cons_drop l cur c h
        have htk : (l.insertIdx cur c).take (cur + 1) = l.take cur ++ [c] := by
          rw [hsplit]
          have hl : (l.take cur).length = cur := by
            simp [List.length_take]
            omega
          calc (l.take cur ++ c :: l.drop cur).take (cur + 1)
              = (l.take cur ++ c :: l.drop cur).take ((l.take cur).length + 1) := by
                rw [hl]
            _ = l.take cur ++ (c :: l.drop cur).take 1 := List.take_append 1
            _ = l.take cur ++ [c] := by simp
        have hdr : (l.insertIdx cur c).drop (cur + 1) = l.drop cur := by
          rw [hsplit]
          have hl : (l.take cur).length = cur := by
            simp [List.length_take]
            omega
          calc (l.take cur ++ c :: l.drop cur).drop (cur + 1)
              = (l.take cur ++ c :: l.drop cur).drop ((l.take cur).length + 1) := by
                rw [hl]
            _ = (c :: l.drop cur).drop 1 := List.drop_append 1
            _ = l.drop cur := by simp
        rw [List.foldl_cons, hstep, ih ⟨l.insertIdx cur c, cur + 1, sel⟩ hcur]
        simp only [htk, hdr, List.filter_cons, hv]
        simp [List.append_assoc]
        omega
      · have hstep : rawInsert ⟨l, cur, sel⟩ c = ⟨l, cur, sel⟩ := by
          simp [rawInsert, hv]
        rw [List.foldl_cons, hstep, ih ⟨l, cur, sel⟩ h]
        simp [List.filter_cons, hv]

theorem delete_selection_length_le (st : EditorState) (h : EditorInv st) :
    (delete_selection st).intention.length ≤ st.intention.length := by
  rcases st with ⟨text, c, sel⟩
  obtain ⟨hc, hs⟩ := h
  dsimp only at hc hs ⊢
  cases sel with
  | none => simp [delete_selection, selection_range]
  | some a =>
      have ha : a ≤ text.length := hs a rfl
      by_cases hlt : a < c <;>
        simp [delete_selection, selection_range, hlt] <;> omega

theorem delete_selection_cursor_le (st : EditorState) (h : EditorInv st) :
    (delete_selection st).cursor_pos ≤ (delete_selection st).intention.length :=
  (inv_delete_selection st h).1

/-! ## Claim theorems: text editor -/

/-- C9: after any sequence of text-editor operations starting from the
initial empty state, `0 ≤ cursor ≤ length` holds, any selection anchor
satisfies `0 ≤ anchor ≤ length`, and the normalized half-open selection
range `[min, max)` is always within the text bounds. -/
theorem editor_selection_invariant (inputs : List EditorInput) :
    EditorInv (runEditor inputs) ∧
      ∀ s e, selection_range (runEditor inputs) = some (s, e) →
        s ≤ e ∧ e ≤ (runEditor inputs).intention.length := by
  have h0 : EditorInv editorInit := by
    refine ⟨by simp [editorInit], fun a ha => ?_⟩
    simp [editorInit] at ha
  have hinv : EditorInv (runEditor inputs) := inv_runEditorAux inputs editorInit h0
  exact ⟨hinv, fun s e hr => selection_range_bounds _ hinv s e hr⟩

set_option maxRecDepth 8192 in
/-- C2 counterexample: in the state holding 100 characters with an empty
selection (anchor = cursor = 100), inserting the valid character `'a'`
fails the length precondition yet is not a complete no-op — the
selection anchor is cleared — refuting the claim that a failed insert
leaves text, cursor and anchor all unchanged. -/
theorem insert_failed_not_noop_counterexample :
    ¬ ((List.replicate 100 'b').length < 100) ∧
      insertChar ⟨List.replicate 100 'b', 100, some 100⟩ 'a'
        ≠ ⟨List.replicate 100 'b', 100, some 100⟩ := by
  constructor
  · decide
  · decide

set_option maxRecDepth 8192 in
/-- C2 (amended): an invalid character is a complete no-op; with no
active selection and length at the 100 cap, a valid character is also a
complete no-op; a valid character always deletes the active selection
first (which can change the anchor even when the insert is then refused)
and is inserted exactly when the post-deletion length is below 100; and
typing 101 valid characters from the empty state succeeds for exactly
the first 100, the cursor stopping at 100. -/
theorem insert_cap_behaviour (st : EditorState) (c : Char) :
    (validChar c = false → insertChar st c = st) ∧
    (st.selection_start = none → 100 ≤ st.intention.length →
      insertChar st c = st) ∧
    (validChar c = true → (delete_selection st).intention.length < 100 →
      insertChar st c =
        { intention := (delete_selection st).intention.insertIdx
            (delete_selection st).cursor_pos c
          cursor_pos := (delete_selection st).cursor_pos + 1
          selection_start := (delete_selection st).selection_start }) ∧
    ((List.replicate 101 'b').foldl insertChar editorInit
      = ⟨List.replicate 100 'b', 100, none⟩) := by
  refine ⟨?_, ?_, ?_, ?_⟩
  · intro hv
    simp [insertChar, hv]
  · intro hsel hlen
    have hds : delete_selection st = st := by
      simp [delete_selection, selection_range, hsel]
    simp [insertChar, hds, Nat.not_lt.mpr hlen]
  · intro hv hlt
    simp [insertChar, hv, hlt]
  · decide

set_option maxRecDepth 8192 in
/-- C2 witness: at the cap with no selection, the insert of a valid
character is refused and nothing changes. -/
theorem insert_cap_behaviour_witness :
    insertChar ⟨List.replicate 100 'b', 100, none⟩ 'a'
      = ⟨List.replicate 100 'b', 100, none⟩ :=
  (insert_cap_behaviour ⟨List.replicate 100 'b', 100, none⟩ 'a').2.1 rfl
    (by decide)

set_option maxRecDepth 8192 in
/-- C1 counterexample: with 95 characters in the buffer the placeholder
paste (11 raw characters, 10 of them insertable) is refused wholesale —
the state is completely unchanged, instead of the insertable characters
being inserted up to the 100-character cap. -/
theorem paste_refuses_wholesale_counterexample :
    pasteStep ⟨List.replicate 95 'b', 95, none⟩ pastedText
        = ⟨List.replicate 95 'b', 95, none⟩ ∧
      (pastedText.filter (fun c => validChar c)).length = 10 := by
  constructor
  · decide
  · decide

/-- C1 (amended): paste is guarded by the raw (unfiltered) incoming
length — when the current length plus the raw paste length exceeds 100,
the operation refuses wholesale (no selection deletion, no insertion);
otherwise it deletes any active selection and then inserts every
filtered character at the cursor, and the guard keeps the result within
the 100-character cap (so truncation at the cap never happens). -/
theorem paste_cap_behaviour (st : EditorState) (text : List Char)
    (hinv : EditorInv st) :
    (100 < st.intention.length + text.length → pasteStep st text = st) ∧
    (st.intention.length + text.length ≤ 100 →
      pasteStep st text =
        { intention := (delete_selection st).intention.take
              (delete_selection st).cursor_pos
            ++ text.filter (fun c => validChar c)
            ++ (delete_selection st).intention.drop
              (delete_selection st).cursor_pos
          cursor_pos := (delete_selection st).cursor_pos
            + (text.filter (fun c => validChar c)).length
          selection_start := none } ∧
      (pasteStep st text).intention.length ≤ 100) := by
  constructor
  · intro hgt
    simp [pasteStep, Nat.not_le.mpr hgt]
  · intro hle
    have hcur := delete_selection_cursor_le st hinv
    have hsplice := pasteLoop_splice text (delete_selection st) hcur
    have hsel := delete_selection_selection st
    have heq : pasteStep st text = text.foldl rawInsert (delete_selection st) := by
      simp [pasteStep, hle]
    constructor
    · rw [heq, hsplice, hsel]
    · rw [heq, hsplice]
      have h1 : ((delete_selection st).intention.take
            (delete_selection st).cursor_pos).length
          = (delete_selection st).cursor_pos := by
        simp [List.length_take]
        omega
      have h2 : ((delete_selection st).intention.drop
            (delete_selection st).cursor_pos).length
          = (delete_selection st).intention.length
            - (delete_selection st).cursor_pos := by
        simp [List.length_drop]
      have h3 : (text.filter (fun c => validChar c)).length ≤ text.length :=
        List.length_filter_le _ _
      have h4 := delete_selection_length_le st hinv
      simp only [List.length_append, h1, h2]
      omega

/-- C1 witness: a fitting paste into a one-character buffer inserts all
ten filtered placeholder characters after the cursor. -/
theorem paste_cap_behaviour_witness :
    pasteStep ⟨['x'], 1, none⟩ pastedText
      = ⟨'x' :: pastedText.filter (fun c => validChar c), 11, none⟩ := by
  have h := (paste_cap_behaviour ⟨['x'], 1, none⟩ pastedText
    ⟨by decide, fun a ha => by simp at ha⟩).2 (by decide)
  rw [h.1]
  decide

/-- C8 counterexample: with the cursor already at offset 0 and no active
selection, Shift+Left does not establish a selection anchor at the
pre-move cursor position — the state is unchanged and the anchor stays
`none` — refuting the claim that an extend move anchors at every
starting cursor position including the boundary. -/
theorem extend_left_at_zero_counterexample :
    leftStep true ⟨['a', 'b'], 0, none⟩ = ⟨['a', 'b'], 0, none⟩ ∧
      (leftStep true ⟨['a', 'b'], 0, none⟩).selection_start ≠ some 0 := by
  constructor
  · decide
  · decide

/-- C8 (amended): from a state with no active selection, Shift+Left and
Shift+Right establish the anchor at the pre-move cursor and move the
cursor only when the cursor is not already at the boundary the move is
directed toward (at the boundary they do nothing at all, no anchor);
Shift+Home and Shift+End establish the anchor at the pre-move cursor at
every starting position, including boundaries; and an existing anchor is
never changed by any extend move. -/
theorem extend_anchor_behaviour (st : EditorState) :
    (st.selection_start = none → 0 < st.cursor_pos →
      leftStep true st = ⟨st.intention, st.cursor_pos - 1, some st.cursor_pos⟩) ∧
    (st.cursor_pos = 0 → leftStep true st = st) ∧
    (st.selection_start = none → st.cursor_pos < st.intention.length →
      rightStep true st
        = ⟨st.intention, st.cursor_pos + 1, some st.cursor_pos⟩) ∧
    (st.intention.length ≤ st.cursor_pos → rightStep true st = st) ∧
    (st.selection_start = none →
      homeStep true st = ⟨st.intention, 0, some st.cursor_pos⟩) ∧
    (st.selection_start = none →
      endStep true st
        = ⟨st.intention, st.intention.length, some st.cursor_pos⟩) ∧
    (∀ a, st.selection_start = some a →
      (leftStep true st).selection_start = some a ∧
      (rightStep true st).selection_start = some a ∧
      (homeStep true st).selection_start = some a ∧
      (endStep true st).selection_start = some a) := by
  refine ⟨?_, ?_, ?_, ?_, ?_, ?_, ?_⟩
  · intro hsel hcur
    simp [leftStep, hcur, hsel]
    omega
  · intro hcur
    simp [leftStep, hcur]
  · intro hsel hcur
    simp [rightStep, hcur, hsel]
  · intro hcur
    simp [rightStep, Nat.not_lt.mpr hcur]
  · intro hsel
    simp [homeStep, hsel]
  · intro hsel
    simp [endStep, hsel]
  · intro a hsel
    refine ⟨?_, ?_, ?_, ?_⟩
    · by_cases hcur : 0 < st.cursor_pos <;> simp [leftStep, hcur, hsel]
    · by_cases hcur : st.cursor_pos < st.intention.length <;>
        simp [rightStep, hcur, hsel]
    · simp [homeStep, hsel]
    · simp [endStep, hsel]

/-- C8 witness: Shift+Left away from the boundary anchors at the
pre-move cursor and moves the cursor one position left. -/
theorem extend_anchor_behaviour_witness :
    leftStep true ⟨['a', 'b'], 2, none⟩ = ⟨['a', 'b'], 1, some 2⟩ :=
  (extend_anchor_behaviour ⟨['a', 'b'], 2, none⟩).1 rfl (by decide)

/-! ## Claim theorems: glyph generator -/

theorem sigilNumbers_length (rng1 : Nat → Nat) (filtered : List Char) :
    (sigilNumbers rng1 filtered).length = filtered.length := by
  unfold sigilNumbers
  rw [fisherYates_length, List.length_map]

theorem sigilAngles_length (rng2 : Nat → Nat) (jitter : Nat → ℝ) (n : Nat) :
    (sigilAngles rng2 jitter n).length = n := by
  unfold sigilAngles
  rw [fisherYates_length, List.length_map, List.length_range]

theorem sigilPoints_length (rng1 rng2 : Nat → Nat) (jitter : Nat → ℝ)
    (filtered : List Char) :
    (sigilPoints rng1 rng2 jitter filtered).length = filtered.length := by
  unfold sigilPoints
  rw [List.length_map, List.length_zip, sigilAngles_length, Nat.min_self,
    sigilNumbers_length]

theorem sigilPoints_map_number (rng1 rng2 : Nat → Nat) (jitter : Nat → ℝ)
    (filtered : List Char) :
    (sigilPoints rng1 rng2 jitter filtered).map SigilPoint.number
      = sigilNumbers rng1 filtered := by
  unfold sigilPoints
  rw [List.map_map]
  have hf : (SigilPoint.number ∘ fun na : Nat × ℝ =>
      ({ relative_pos := pointPos na.2, number := na.1 } : SigilPoint))
      = Prod.fst := by
    funext na
    rfl
  rw [hf]
  exact List.map_fst_zip _ _ (by rw [sigilAngles_length])

/-- C4: for every intention whose filtered/deduplicated string is
non-empty, and for all random oracles, `generate_sigil` succeeds and
produces exactly one glyph point per character of that string, the
multiset of point labels equals the multiset of mapped digits
(`charToDigit`), and every Fisher-Yates shuffle is a permutation, so
neither shuffle changes count or multiset. -/
theorem generate_count_and_label_multiset (rng1 rng2 : Nat → Nat)
    (jitter : Nat → ℝ) (intention : List Char)
    (hne : filterIntention intention ≠ []) :
    (∃ pts, generate_sigil rng1 rng2 jitter intention = some pts ∧
        pts.length = (filterIntention intention).length ∧
        (pts.map SigilPoint.number).Perm
          ((filterIntention intention).map charToDigit)) ∧
      ∀ (rng : Nat → Nat) (l : List Nat), (fisherYates rng l).Perm l := by
  refine ⟨?_, fun rng l => fisherYates_perm rng l⟩
  have hws : ¬ (intention.all Char.isWhitespace = true) := by
    intro hcon
    exact hne (filterIntention_of_whitespace intention hcon)
  refine ⟨sigilPoints rng1 rng2 jitter (filterIntention intention), ?_, ?_, ?_⟩
  · unfold generate_sigil
    rw [if_neg hws, if_neg hne]
  · exact sigilPoints_length rng1 rng2 jitter (filterIntention intention)
  · rw [sigilPoints_map_number]
    exact fisherYates_perm rng1 _

/-- C4 witness: generating from `"hello world"` (filtered string
`"hlwrd"`, five characters) with concrete oracles yields five points
whose labels are a permutation of the mapped digits. -/
theorem generate_count_and_label_multiset_witness :
    (∃ pts, generate_sigil (fun _ => 0) (fun _ => 0) (fun _ => (0 : ℝ))
        ("hello world".toList) = some pts ∧
        pts.length = (filterIntention ("hello world".toList)).length ∧
        (pts.map SigilPoint.number).Perm
          ((filterIntention ("hello world".toList)).map charToDigit)) ∧
      ∀ (rng : Nat → Nat) (l : List Nat), (fisherYates rng l).Perm l :=
  generate_count_and_label_multiset (fun _ => 0) (fun _ => 0) (fun _ => 0)
    ("hello world".toList) (by decide)

theorem pointPos_radius (angle : ℝ) :
    Real.sqrt ((pointPos angle).1 ^ 2 + (pointPos angle).2 ^ 2)
      = CIRCLE_RADIUS := by
  have h : (pointPos angle).1 ^ 2 + (pointPos angle).2 ^ 2
      = CIRCLE_RADIUS ^ 2 := by
    have hpy := Real.sin_sq_add_cos_sq angle
    simp only [pointPos, CIRCLE_RADIUS]
    nlinarith [hpy]
  rw [h]
  exact Real.sqrt_sq (by norm_num [CIRCLE_RADIUS])

/-- C6: for every generation (over the real-number semantics of the
source's `f32` trigonometry), every output point's label lies in
`[0, 9]` and every output position lies at exactly `CIRCLE_RADIUS`
distance from the center — the angle jitter, whatever its value, changes
direction only, never magnitude. -/
theorem generate_labels_and_radius (rng1 rng2 : Nat → Nat)
    (jitter : Nat → ℝ) (intention : List Char) :
    List.Forall (fun p : SigilPoint =>
        p.number ≤ 9 ∧
          Real.sqrt (p.relative_pos.1 ^ 2 + p.relative_pos.2 ^ 2)
            = CIRCLE_RADIUS)
      ((generate_sigil rng1 rng2 jitter intention).getD []) := by
  rw [List.forall_iff_forall_mem]
  intro p hp
  unfold generate_sigil at hp
  by_cases hws : intention.all Char.isWhitespace = true
  · rw [if_pos hws] at hp
    simp at hp
  · rw [if_neg hws] at hp
    by_cases hne : filterIntention intention = []
    · rw [if_pos hne] at hp
      simp at hp
    · rw [if_neg hne] at hp
      simp only [Option.getD_some] at hp
      unfold sigilPoints at hp
      obtain ⟨na, hna, rfl⟩ := List.mem_map.mp hp
      obtain ⟨hn, -⟩ := List.of_mem_zip hna
      constructor
      · have hmem : na.1 ∈ (filterIntention intention).map charToDigit :=
          (fisherYates_perm _ _).mem_iff.mp hn
        obtain ⟨c, -, hc⟩ := List.mem_map.mp hmem
        rw [← hc]
        exact charToDigit_le_nine c
      · exact pointPos_radius na.2



/-! ## App state machine lemmas -/

theorem tickTimers_not_saving (dt : ℚ) (s : AppState)
    (h : s.state ≠ State.saving) :
    tickTimers dt s = { s with blink_timer := s.blink_timer + dt } := by
  unfold tickTimers
  dsimp only
  rw [if_neg h]

theorem tickTimers_saving (dt : ℚ) (s : AppState)
    (h : s.state = State.saving) :
    tickTimers dt s =
      if 1 < s.save_timer + dt then
        { s with
            blink_timer := s.blink_timer + dt
            state := State.display
            save_timer := 0 }
      else
        { s with
            blink_timer := s.blink_timer + dt
            save_timer := s.save_timer + dt } := by
  unfold tickTimers
  dsimp only
  rw [if_pos h]

theorem dispatch_start (tick : InputTick) (s : AppState)
    (h : s.state = State.start) :
    dispatch tick s = if tick.space then { s with state := State.input } else s := by
  rcases s with ⟨sst, sint, spts, sbl, ssv, scur, ssel⟩
  dsimp only at h
  subst h
  rfl

theorem dispatch_input_eq (tick : InputTick) (s : AppState)
    (h : s.state = State.input) :
    dispatch tick s =
      if tick.enter && !((handle_text_input tick.editor
          (toEditor s)).intention.all Char.isWhitespace) then
        match generate_sigil tick.rng1 tick.rng2 tick.jitter
            (handle_text_input tick.editor (toEditor s)).intention with
        | some pts =>
            { fromEditor s (handle_text_input tick.editor (toEditor s)) with
              points := pts, state := State.display }
        | none => fromEditor s (handle_text_input tick.editor (toEditor s))
      else fromEditor s (handle_text_input tick.editor (toEditor s)) := by
  rcases s with ⟨sst, sint, spts, sbl, ssv, scur, ssel⟩
  dsimp only at h
  subst h
  rfl

theorem dispatch_display_eq (tick : InputTick) (s : AppState)
    (h : s.state = State.display) :
    dispatch tick s =
      if tick.space && decide (1 < s.points.length) then
        { s with state := State.animating 0 0 }
      else if tick.keyR then reset s
      else if tick.keyS then { s with state := State.saving }
      else s := by
  rcases s with ⟨sst, sint, spts, sbl, ssv, scur, ssel⟩
  dsimp only at h
  subst h
  rfl

theorem dispatch_animating_eq (tick : InputTick) (s : AppState) (p0 : ℚ)
    (l0 : Nat) (h : s.state = State.animating p0 l0) :
    dispatch tick s =
      if 1 ≤ p0 + tick.frameTime * ANIMATION_SPEED then
        if s.points.length - 1 ≤ l0 + 1 then { s with state := State.display }
        else { s with state := State.animating 0 (l0 + 1) }
      else
        { s with state :=
            State.animating (p0 + tick.frameTime * ANIMATION_SPEED) l0 } := by
  rcases s with ⟨sst, sint, spts, sbl, ssv, scur, ssel⟩
  dsimp only at h
  subst h
  rfl

theorem dispatch_saving_fixed (tick : InputTick) (s : AppState)
    (h : s.state = State.saving) : dispatch tick s = s := by
  rcases s with ⟨sst, sint, spts, sbl, ssv, scur, ssel⟩
  dsimp only at h
  subst h
  rfl

theorem dispatch_save_timer (tick : InputTick) (s : AppState) :
    (dispatch tick s).save_timer = s.save_timer := by
  cases hst : s.state with
  | start =>
      rw [dispatch_start tick s hst]
      split <;> rfl
  | input =>
      rw [dispatch_input_eq tick s hst]
      split
      · split <;> rfl
      · rfl
  | display =>
      rw [dispatch_display_eq tick s hst]
      split
      · rfl
      · split
        · rfl
        · split <;> rfl
  | animating p0 l0 =>
      rw [dispatch_animating_eq tick s p0 l0 hst]
      split
      · split <;> rfl
      · rfl
  | saving => rw [dispatch_saving_fixed tick s hst]

theorem saveInv_tickTimers (dt : ℚ) (s : AppState) (h : SaveTimerInv s) :
    SaveTimerInv (tickTimers dt s) := by
  by_cases hst : s.state = State.saving
  · rw [tickTimers_saving dt s hst]
    split
    · intro hns
      rfl
    · intro hns
      exact absurd hst hns
  · rw [tickTimers_not_saving dt s hst]
    intro hns
    exact h hst

theorem saveInv_dispatch (tick : InputTick) (s : AppState)
    (h : SaveTimerInv s) : SaveTimerInv (dispatch tick s) := by
  intro hns
  rw [dispatch_save_timer]
  by_cases hst : s.state = State.saving
  · rw [dispatch_saving_fixed tick s hst, hst] at hns
    exact absurd rfl hns
  · exact h hst

theorem animInv_tickTimers (dt : ℚ) (s : AppState) (h : AnimInv s) :
    AnimInv (tickTimers dt s) := by
  by_cases hst : s.state = State.saving
  · rw [tickTimers_saving dt s hst]
    split
    · intro p l hc
      simp at hc
    · intro p l hc
      rw [hst] at hc
      simp at hc
  · rw [tickTimers_not_saving dt s hst]
    intro p l hc
    exact h p l hc

theorem animInv_dispatch (tick : InputTick) (s : AppState) (h : AnimInv s) :
    AnimInv (dispatch tick s) := by
  cases hst : s.state with
  | start =>
      rw [dispatch_start tick s hst]
      by_cases hsp : tick.space = true
      · rw [if_pos hsp]
        intro p l hc
        simp at hc
      · rw [if_neg hsp]
        intro p l hc
        rw [hst] at hc
        simp at hc
  | input =>
      rw [dispatch_input_eq tick s hst]
      by_cases he : (tick.enter && !((handle_text_input tick.editor
          (toEditor s)).intention.all Char.isWhitespace)) = true
      · rw [if_pos he]
        cases hgen : generate_sigil tick.rng1 tick.rng2 tick.jitter
            (handle_text_input tick.editor (toEditor s)).intention with
        | some pts =>
            intro p l hc
            simp at hc
        | none =>
            intro p l hc
            dsimp only [fromEditor] at hc
            rw [hst] at hc
            simp at hc
      · rw [if_neg he]
        intro p l hc
        dsimp only [fromEditor] at hc
        rw [hst] at hc
        simp at hc
  | display =>
      rw [dispatch_display_eq tick s hst]
      by_cases h1 : (tick.space && decide (1 < s.points.length)) = true
      · rw [if_pos h1]
        intro p l hc
        have h2 : 1 < s.points.length := by
          simp only [Bool.and_eq_true, decide_eq_true_eq] at h1
          exact h1.2
        dsimp only
        omega
      · rw [if_neg h1]
        by_cases h2 : tick.keyR = true
        · rw [if_pos h2]
          intro p l hc
          simp [reset] at hc
        · rw [if_neg h2]
          by_cases h3 : tick.keyS = true
          · rw [if_pos h3]
            intro p l hc
            simp at hc
          · rw [if_neg h3]
            intro p l hc
            rw [hst] at hc
            simp at hc
  | animating p0 l0 =>
      rw [dispatch_animating_eq tick s p0 l0 hst]
      have h2 := h p0 l0 hst
      by_cases hp : (1 : ℚ) ≤ p0 + tick.frameTime * ANIMATION_SPEED
      · rw [if_pos hp]
        by_cases hl : s.points.length - 1 ≤ l0 + 1
        · rw [if_pos hl]
          intro p l hc
          simp at hc
        · rw [if_neg hl]
          intro p l hc
          dsimp only at hc ⊢
          exact h2
      · rw [if_neg hp]
        intro p l hc
        dsimp only at hc ⊢
        exact h2
  | saving =>
      rw [dispatch_saving_fixed tick s hst]
      intro p l hc
      rw [hst] at hc
      simp at hc

theorem foldlInv (P : AppState → Prop)
    (hstep : ∀ (tick : InputTick) (s : AppState), P s → P (update tick s)) :
    ∀ (ticks : List InputTick) (s : AppState), P s →
      P (ticks.foldl (fun s t => update t s) s) := by
  intro ticks
  induction ticks with
  | nil => exact fun s h => h
  | cons t rest ih => exact fun s h => ih _ (hstep t s h)

theorem animInv_update (tick : InputTick) (s : AppState) (h : AnimInv s) :
    AnimInv (update tick s) :=
  animInv_dispatch tick _ (animInv_tickTimers tick.frameTime s h)

theorem saveInv_update (tick : InputTick) (s : AppState) (h : SaveTimerInv s) :
    SaveTimerInv (update tick s) :=
  saveInv_dispatch tick _ (saveInv_tickTimers tick.frameTime s h)

theorem animInv_runApp (ticks : List InputTick) : AnimInv (runApp ticks) :=
  foldlInv AnimInv animInv_update ticks initApp
    (fun p l hc => by simp [initApp] at hc)

theorem saveInv_runApp (ticks : List InputTick) : SaveTimerInv (runApp ticks) :=
  foldlInv SaveTimerInv saveInv_update ticks initApp (fun _ => rfl)

theorem generate_sigil_none_of_filter_empty (rng1 rng2 : Nat → Nat)
    (jitter : Nat → ℝ) (l : List Char) (h : filterIntention l = []) :
    generate_sigil rng1 rng2 jitter l = none := by
  unfold generate_sigil
  by_cases hws : l.all Char.isWhitespace = true
  · rw [if_pos hws]
  · rw [if_neg hws, if_pos h]


/-! ## Claim theorems: application state machine -/

/-- C5: on the Input screen, when this frame's post-edit intention
filters to the empty string (covering both the whitespace-only intention
and the all-vowel intention such as `"aeiou"`), generation fails as a
complete no-op: the screen stays Input and the stored glyph point
sequence is unchanged. -/
theorem generation_failure_is_noop (s : AppState) (tick : InputTick)
    (hst : s.state = State.input)
    (hfail : filterIntention
      (handle_text_input tick.editor (toEditor s)).intention = []) :
    (update tick s).state = State.input ∧ (update tick s).points = s.points := by
  have hns : s.state ≠ State.saving := by
    rw [hst]
    simp
  unfold update
  rw [tickTimers_not_saving _ _ hns]
  rw [dispatch_input_eq tick { s with
    blink_timer := s.blink_timer + tick.frameTime } hst]
  have hte : toEditor { s with
      blink_timer := s.blink_timer + tick.frameTime } = toEditor s := rfl
  rw [hte]
  have hgen := generate_sigil_none_of_filter_empty tick.rng1 tick.rng2
    tick.jitter _ hfail
  rw [hgen]
  constructor
  · split
    · exact hst
    · exact hst
  · split
    · rfl
    · rfl

/-- C5 witness: with intention `"aeiou"` on the Input screen, pressing
Enter leaves the screen on Input and the point list empty. -/
theorem generation_failure_is_noop_witness :
    (update
        ⟨⟨[], false, false, false, false, false, false, false, false, false,
          false, false, false⟩, false, true, false, false, 0, fun _ => 0,
          fun _ => 0, fun _ => 0, true⟩
        ⟨State.input, "aeiou".toList, [], 0, 0, 5, none⟩).state = State.input ∧
      (update
        ⟨⟨[], false, false, false, false, false, false, false, false, false,
          false, false, false⟩, false, true, false, false, 0, fun _ => 0,
          fun _ => 0, fun _ => 0, true⟩
        ⟨State.input, "aeiou".toList, [], 0, 0, 5, none⟩).points = [] :=
  generation_failure_is_noop
    ⟨State.input, "aeiou".toList, [], 0, 0, 5, none⟩
    ⟨⟨[], false, false, false, false, false, false, false, false, false,
      false, false, false⟩, false, true, false, false, 0, fun _ => 0,
      fun _ => 0, fun _ => 0, true⟩
    rfl (by decide)

/-- C7: in every state reachable from the initial one, the Animating
screen implies at least two glyph points, so `points.len() - 1` in the
per-tick animation update cannot underflow; on Display with exactly one
point the animate key has no effect; and the glyph points never change
during an Animating frame. -/
theorem animating_has_two_points (ticks : List InputTick) :
    (∀ p l, (runApp ticks).state = State.animating p l →
      2 ≤ (runApp ticks).points.length ∧
        1 ≤ (runApp ticks).points.length - 1) ∧
    (∀ (s : AppState) (tick : InputTick), s.state = State.display →
      s.points.length = 1 → tick.keyR = false → tick.keyS = false →
      (update tick s).state = State.display ∧
        (update tick s).points = s.points) ∧
    (∀ (s : AppState) (tick : InputTick) (p0 : ℚ) (l0 : Nat),
      s.state = State.animating p0 l0 →
      (update tick s).points = s.points) := by
  refine ⟨?_, ?_, ?_⟩
  · intro p l hc
    have h2 := animInv_runApp ticks p l hc
    exact ⟨h2, by omega⟩
  · intro s tick hst hlen hkr hks
    have hns : s.state ≠ State.saving := by
      rw [hst]
      simp
    unfold update
    rw [tickTimers_not_saving _ _ hns]
    rw [dispatch_display_eq tick { s with
      blink_timer := s.blink_timer + tick.frameTime } hst]
    have hc1 : (tick.space && decide (1 < ({ s with
        blink_timer := s.blink_timer + tick.frameTime } :
          AppState).points.length)) = false := by
      show (tick.space && decide (1 < s.points.length)) = false
      rw [hlen]
      simp
    rw [hc1]
    simp only [Bool.false_eq_true, if_false, hkr, hks]
    exact ⟨hst, trivial⟩
  · intro s tick p0 l0 hst
    have hns : s.state ≠ State.saving := by
      rw [hst]
      simp
    unfold update
    rw [tickTimers_not_saving _ _ hns]
    rw [dispatch_animating_eq tick { s with
      blink_timer := s.blink_timer + tick.frameTime } p0 l0 hst]
    split
    · split <;> rfl
    · rfl

/-- C3 counterexample: starting from Saving with `save_timer = 0`, one
frame of exactly 1.0 elapsed seconds accumulates `save_timer` to exactly
1.0, yet the screen stays in Saving — the source's threshold is the
strict `save_timer > 1.0`, so at exactly 1.0 second the screen does not
return to Display as claimed. -/
theorem saving_exact_second_counterexample :
    (update
        ⟨⟨[], false, false, false, false, false, false, false, false, false,
          false, false, false⟩, false, false, false, false, 1, fun _ => 0,
          fun _ => 0, fun _ => 0, true⟩
        ⟨State.saving, [], [], 0, 0, 0, none⟩).state = State.saving ∧
      (update
        ⟨⟨[], false, false, false, false, false, false, false, false, false,
          false, false, false⟩, false, false, false, false, 1, fun _ => 0,
          fun _ => 0, fun _ => 0, true⟩
        ⟨State.saving, [], [], 0, 0, 0, none⟩).save_timer = 1 := by
  unfold update
  rw [tickTimers_saving _ _ rfl, if_neg (by norm_num)]
  rw [dispatch_saving_fixed _ _ rfl]
  exact ⟨rfl, by norm_num⟩

/-- C3 (amended): the Saving screen hands back to Display only when the
accumulated `save_timer` strictly exceeds 1.0 (at exactly 1.0 it stays
in Saving one more frame), clearing `save_timer` to 0 on the way out;
and in every reachable state the timer is 0 whenever the screen is not
Saving, so it is 0 at the moment Saving is entered and after it is
left. -/
theorem saving_timer_strict_threshold :
    (∀ (s : AppState) (tick : InputTick), s.state = State.saving →
      1 < s.save_timer + tick.frameTime →
      tick.space = false → tick.keyR = false → tick.keyS = false →
      (update tick s).state = State.display ∧
        (update tick s).save_timer = 0) ∧
    (∀ (s : AppState) (tick : InputTick), s.state = State.saving →
      s.save_timer + tick.frameTime ≤ 1 →
      (update tick s).state = State.saving ∧
        (update tick s).save_timer = s.save_timer + tick.frameTime) ∧
    (∀ ticks : List InputTick, (runApp ticks).state ≠ State.saving →
      (runApp ticks).save_timer = 0) := by
  refine ⟨?_, ?_, ?_⟩
  · intro s tick hst ht hsp hkr hks
    unfold update
    rw [tickTimers_saving _ _ hst, if_pos ht]
    rw [dispatch_display_eq _ _ rfl]
    simp only [hsp, hkr, hks, Bool.false_and, Bool.false_eq_true, if_false]
    constructor <;> trivial
  · intro s tick hst ht
    unfold update
    rw [tickTimers_saving _ _ hst, if_neg (not_lt.mpr ht)]
    rw [dispatch_saving_fixed tick ({ s with
      blink_timer := s.blink_timer + tick.frameTime
      save_timer := s.save_timer + tick.frameTime }) hst]
    exact ⟨hst, rfl⟩
  · exact fun ticks => saveInv_runApp ticks

/-- C3 witness: from Saving with the timer at 1/2, a frame of 1 second
pushes the timer over 1.0 and the screen returns to Display with the
timer cleared. -/
theorem saving_timer_strict_threshold_witness :
    (update
        ⟨⟨[], false, false, false, false, false, false, false, false, false,
          false, false, false⟩, false, false, false, false, 1, fun _ => 0,
          fun _ => 0, fun _ => 0, true⟩
        ⟨State.saving, [], [], 0, 1 / 2, 0, none⟩).state = State.display ∧
      (update
        ⟨⟨[], false, false, false, false, false, false, false, false, false,
          false, false, false⟩, false, false, false, false, 1, fun _ => 0,
          fun _ => 0, fun _ => 0, true⟩
        ⟨State.saving, [], [], 0, 1 / 2, 0, none⟩).save_timer = 0 :=
  saving_timer_strict_threshold.1
    ⟨State.saving, [], [], 0, 1 / 2, 0, none⟩
    ⟨⟨[], false, false, false, false, false, false, false, false, false,
      false, false, false⟩, false, false, false, false, 1, fun _ => 0,
      fun _ => 0, fun _ => 0, true⟩
    rfl (by norm_num) rfl rfl rfl

/-- C10: on the Display screen with at least one glyph point, pressing
only the save key transitions the screen to Saving, and the resulting
state is the same whether the export side effect succeeds or fails —
the outcome is reported to a log and otherwise ignored, so an I/O
failure never blocks the transition or the Saving-screen confirmation. -/
theorem save_transition_ignores_export (s : AppState) (tick : InputTick)
    (hst : s.state = State.display) (hpts : 1 ≤ s.points.length)
    (hsp : tick.space = false) (hkr : tick.keyR = false)
    (hks : tick.keyS = true) :
    (∀ b : Bool, (update { tick with exportOk := b } s).state = State.saving ∧
      (update { tick with exportOk := b } s).points = s.points) ∧
    update { tick with exportOk := true } s
      = update { tick with exportOk := false } s := by
  have hns : s.state ≠ State.saving := by
    rw [hst]
    simp
  have hkey : ∀ b : Bool, update { tick with exportOk := b } s =
      { s with blink_timer := s.blink_timer + tick.frameTime
               state := State.saving } := by
    intro b
    unfold update
    dsimp only
    rw [tickTimers_not_saving _ _ hns]
    rw [dispatch_display_eq ({ tick with exportOk := b }) ({ s with
      blink_timer := s.blink_timer + tick.frameTime }) hst]
    dsimp only
    have hc1 : (tick.space && decide (1 < ({ s with
        blink_timer := s.blink_timer + tick.frameTime } :
          AppState).points.length)) = false := by
      rw [hsp]
      simp
    rw [hc1]
    simp only [Bool.false_eq_true, if_false, hkr, hks, if_true]
  refine ⟨fun b => ?_, by rw [hkey true, hkey false]⟩
  rw [hkey b]
  exact ⟨rfl, rfl⟩

/-- C10 witness: with one glyph point on Display, pressing S moves to
Saving both when the export succeeds and when it fails. -/
theorem save_transition_ignores_export_witness :
    (update
        ⟨⟨[], false, false, false, false, false, false, false, false, false,
          false, false, false⟩, false, false, false, true, 0, fun _ => 0,
          fun _ => 0, fun _ => 0, false⟩
        ⟨State.display, ['a'], [⟨((0 : ℝ), (0 : ℝ)), 0⟩], 0, 0, 1, none⟩).state
      = State.saving ∧
      (update
        ⟨⟨[], false, false, false, false, false, false, false, false, false,
          false, false, false⟩, false, false, false, true, 0, fun _ => 0,
          fun _ => 0, fun _ => 0, false⟩
        ⟨State.display, ['a'], [⟨((0 : ℝ), (0 : ℝ)), 0⟩], 0, 0, 1, none⟩).points
      = [⟨((0 : ℝ), (0 : ℝ)), 0⟩] :=
  (save_transition_ignores_export
    ⟨State.display, ['a'], [⟨((0 : ℝ), (0 : ℝ)), 0⟩], 0, 0, 1, none⟩
    ⟨⟨[], false, false, false, false, false, false, false, false, false,
      false, false, false⟩, false, false, false, true, 0, fun _ => 0,
      fun _ => 0, fun _ => 0, true⟩
    rfl (by simp) rfl rfl rfl).1 false


/-- C9 witness: the invariant evaluated on a concrete input sequence —
typing two characters and extending the selection left by one. -/
theorem editor_selection_invariant_witness :
    EditorInv (runEditor
      [⟨['h', 'i'], false, false, false, false, false, false, false, false,
        false, false, false, false⟩,
       ⟨[], false, false, true, false, false, false, true, false, false,
        false, false, false⟩]) ∧
      ∀ s e, selection_range (runEditor
        [⟨['h', 'i'], false, false, false, false, false, false, false, false,
          false, false, false, false⟩,
         ⟨[], false, false, true, false, false, false, true, false, false,
          false, false, false⟩]) = some (s, e) →
        s ≤ e ∧ e ≤ (runEditor
          [⟨['h', 'i'], false, false, false, false, false, false, false, false,
            false, false, false, false⟩,
           ⟨[], false, false, true, false, false, false, true, false, false,
            false, false, false⟩]).intention.length :=
  editor_selection_invariant
    [⟨['h', 'i'], false, false, false, false, false, false, false, false,
      false, false, false, false⟩,
     ⟨[], false, false, true, false, false, false, true, false, false,
      false, false, false⟩]

/-- C7 witness: the animation invariant evaluated on the empty run (the
initial state), together with the concrete no-effect and
points-preservation parts. -/
theorem animating_has_two_points_witness :
    (∀ p l, (runApp []).state = State.animating p l →
      2 ≤ (runApp []).points.length ∧ 1 ≤ (runApp []).points.length - 1) ∧
    (∀ (s : AppState) (tick : InputTick), s.state = State.display →
      s.points.length = 1 → tick.keyR = false → tick.keyS = false →
      (update tick s).state = State.display ∧
        (update tick s).points = s.points) ∧
    (∀ (s : AppState) (tick : InputTick) (p0 : ℚ) (l0 : Nat),
      s.state = State.animating p0 l0 →
      (update tick s).points = s.points) :=
  animating_has_two_points []

end SigilGen
